import Mathlib

/-!
Shallow embedding of the map-editing core of porymap (a tile-map editor),
from `src/include/core/map.h` and `src/include/ui/neweventtoolbutton.h`.
The repository fragment only ships the two headers; every function body is
modelled from the specification, which describes the `Map` entity holding
tile/collision/event data and undo history, its block-mutation API
(flood fill with 4-connectivity, magic fill), its incremental
rendering/caching logic (dirty-block detection via cache-diff comparison),
and toolbar UI bound to event-creation actions.
-/

namespace Porymap

/-- `#define DEFAULT_BORDER_WIDTH 2` from map.h. -/
def DEFAULT_BORDER_WIDTH : Nat := 2

/-- `#define DEFAULT_BORDER_HEIGHT 2` from map.h. -/
def DEFAULT_BORDER_HEIGHT : Nat := 2

/-- Modelled from the spec: a map block (blockdata.h is absent from src/);
a block carries a metatile id, a collision value and an elevation value. -/
structure Block where
  tile : Nat
  collision : Nat
  elevation : Nat
deriving DecidableEq, Repr

instance : Inhabited Block := ⟨⟨0, 0, 0⟩⟩

/-- Modelled from the spec: `Blockdata` (blockdata.h is absent from src/)
is the flat row-major array of a map's blocks. -/
abbrev Blockdata := List Block

/-- Modelled from the spec: the undo history (`QUndoStack editHistory`);
`index` counts executed commands, `cleanIndex` marks the position that was
last saved (`none` when no position is clean). -/
structure EditHistory where
  index : Nat
  cleanIndex : Option Nat
deriving DecidableEq, Repr

/-- Modelled from the spec: the `Map` entity of map.h, restricted to the
state its block/border/rendering API reads and writes: dimensions,
blockdata, border blockdata, the cached snapshots used for dirty-block
detection, event data, the undo history and the persistence flag. -/
structure Map where
  width : Nat
  height : Nat
  blocks : Blockdata
  border : Blockdata
  borderWidth : Nat := DEFAULT_BORDER_WIDTH
  borderHeight : Nat := DEFAULT_BORDER_HEIGHT
  cachedBlockdata : Blockdata := []
  cachedBorder : Blockdata := []
  events : List String := []
  editHistory : EditHistory := ⟨0, some 0⟩
  isPersistedToFile : Bool := true
deriving DecidableEq, Repr

/-- The blockdata has one block per cell of the `width × height` grid. -/
def Map.WF (m : Map) : Prop := m.blocks.length = m.width * m.height

/-- `int Map::getWidth()`. -/
def Map.getWidth (m : Map) : Nat := m.width

/-- `int Map::getHeight()`. -/
def Map.getHeight (m : Map) : Nat := m.height

/-- Modelled from the spec: `int Map::getBorderWidth()` (map.cpp is absent
from src/); returns the border width, which defaults to
`DEFAULT_BORDER_WIDTH` until `setBorderDimensions` changes it. -/
def Map.getBorderWidth (m : Map) : Nat := m.borderWidth

/-- Modelled from the spec: `int Map::getBorderHeight()` (map.cpp is absent
from src/). -/
def Map.getBorderHeight (m : Map) : Nat := m.borderHeight

/-- Modelled from the spec: `Map::setBorderDimensions` (map.cpp is absent
from src/), restricted to the dimension fields. -/
def Map.setBorderDimensions (m : Map) (newWidth newHeight : Nat) : Map :=
  { m with borderWidth := newWidth, borderHeight := newHeight }

/-- A freshly constructed empty map (`Map::Map`), with no border
dimensions ever explicitly set. -/
def Map.new : Map :=
  { width := 0, height := 0, blocks := [], border := [] }

/-- Modelled from the spec: `Block *Map::getBlock(int x, int y)` (map.cpp
is absent from src/); returns the block at `(x, y)` of the row-major
blockdata, or nothing when `(x, y)` is out of bounds. -/
def Map.getBlock (m : Map) (x y : Int) : Option Block :=
  if x < 0 ∨ (m.width : Int) ≤ x ∨ y < 0 ∨ (m.height : Int) ≤ y then none
  else m.blocks.get? (y.toNat * m.width + x.toNat)

/-- Modelled from the spec: `void Map::setBlock(int x, int y, Block block)`
(map.cpp is absent from src/); overwrites the block at an in-bounds
`(x, y)` and does nothing out of bounds. -/
def Map.setBlock (m : Map) (x y : Int) (b : Block) : Map :=
  if x < 0 ∨ (m.width : Int) ≤ x ∨ y < 0 ∨ (m.height : Int) ≤ y then m
  else { m with blocks := m.blocks.set (y.toNat * m.width + x.toNat) b }

end Porymap

namespace Porymap

/- ### Cache-diff comparison (dirty-block detection) -/

/-- Modelled from the spec: `bool Map::mapBlockChanged(int i, Blockdata *cache)`
(map.cpp is absent from src/); the cache-diff comparison reports whether the
`i`-th block of the current blockdata differs from the `i`-th block of the
cached snapshot (out-of-range entries read as default-constructed blocks). -/
def Map.mapBlockChanged (m : Map) (i : Nat) (cache : Blockdata) : Bool :=
  decide (m.blocks.getD i default ≠ cache.getD i default)

/-- Modelled from the spec: `bool Map::borderBlockChanged(int i, Blockdata *cache)`
(map.cpp is absent from src/); same comparison against the border blockdata. -/
def Map.borderBlockChanged (m : Map) (i : Nat) (cache : Blockdata) : Bool :=
  decide (m.border.getD i default ≠ cache.getD i default)

/-- `void Map::cacheBlockdata()`: snapshot the current blockdata. -/
def Map.cacheBlockdata (m : Map) : Map := { m with cachedBlockdata := m.blocks }

/-- `void Map::cacheBorder()`: snapshot the current border blockdata. -/
def Map.cacheBorder (m : Map) : Map := { m with cachedBorder := m.border }

/- ### Rendering -/

/-- Modelled from the spec: the full-regeneration path of `Map::render`
with `ignoreCache = true` (map.cpp is absent from src/); every block is
drawn afresh by the per-block renderer `f`. -/
def renderFull {γ : Type _} (f : Block → γ) (blocks : Blockdata) : List γ :=
  blocks.map f

/-- Modelled from the spec: the incremental path of `Map::render` with
`ignoreCache = false` (map.cpp is absent from src/); a block is redrawn
only when dirty-block detection finds it differs from the cached snapshot,
otherwise its pixels are kept from the previously rendered image. Blocks
with no cached counterpart or no previously rendered pixels are redrawn. -/
def renderIncremental {γ : Type _} (f : Block → γ) :
    Blockdata → Blockdata → List γ → List γ
  | [], _, _ => []
  | b :: blocks, [], _ => f b :: renderIncremental f blocks [] []
  | b :: blocks, _ :: cached, [] => f b :: renderIncremental f blocks cached []
  | b :: blocks, cb :: cached, img :: image =>
      (if b = cb then img else f b) :: renderIncremental f blocks cached image

/-- Modelled from the spec: `QPixmap Map::render(bool ignoreCache)`
(map.cpp is absent from src/), abstracted over the per-block renderer `f`
and the previously rendered image. -/
def Map.render {γ : Type _} (m : Map) (f : Block → γ) (ignoreCache : Bool)
    (image : List γ) : List γ :=
  if ignoreCache then renderFull f m.blocks
  else renderIncremental f m.blocks m.cachedBlockdata image

/- ### Undo history wiring -/

/-- Modelled from the spec: `QUndoStack::push` semantics for the undo-stack
wiring (the GUI toolkit is absent from src/); pushing a command advances the
index, and invalidates the clean position when it lay above the index. -/
def EditHistory.push (h : EditHistory) : EditHistory :=
  { index := h.index + 1,
    cleanIndex :=
      match h.cleanIndex with
      | some ci => if h.index < ci then none else some ci
      | none => none }

/-- `QUndoStack::isClean`: the current index is the clean position. -/
def EditHistory.isClean (h : EditHistory) : Bool := h.cleanIndex = some h.index

/-- Modelled from the spec: a block-mutating edit operation; the undo-stack
wiring records the edit on the map's `editHistory` as it changes the block. -/
def Map.applyBlockEdit (m : Map) (x y : Int) (b : Block) : Map :=
  let m' := m.setBlock x y b
  { m' with editHistory := m'.editHistory.push }

/-- Modelled from the spec: `bool Map::hasUnsavedChanges()` (map.cpp is
absent from src/); the map has unsaved changes when the undo history is not
clean or the map was never persisted to file. -/
def Map.hasUnsavedChanges (m : Map) : Bool :=
  !m.editHistory.isClean || !m.isPersistedToFile

/- ### Flood fill and magic fill -/

/-- The block at `p` exists and carries collision `c` and elevation `e`. -/
def Map.matchesAt (m : Map) (c e : Nat) (p : Int × Int) : Bool :=
  match m.getBlock p.1 p.2 with
  | some b => decide (b.collision = c ∧ b.elevation = e)
  | none => false

/-- The four cardinal neighbours of a cell (4-connectivity, no diagonals). -/
def neighbors (p : Int × Int) : List (Int × Int) :=
  [(p.1 + 1, p.2), (p.1 - 1, p.2), (p.1, p.2 + 1), (p.1, p.2 - 1)]

/-- Modelled from the spec: the worklist loop of
`Map::_floodFillCollisionElevation` (map.cpp is absent from src/); pops a
cell, and when it still awaits a visit and carries the start block's
original collision `c` and elevation `e`, marks it visited and queues its
four cardinal neighbours. `fuel` bounds the number of iterations; the loop
answers `none` only when the fuel runs out. -/
def Map.floodLoop (m : Map) (c e : Nat) :
    Nat → List (Int × Int) → List (Int × Int) → Option (List (Int × Int))
  | 0, _, _ => none
  | _ + 1, [], visited => some visited
  | fuel + 1, p :: todo, visited =>
    if p ∈ visited ∨ ¬ m.matchesAt c e p then
      m.floodLoop c e fuel todo visited
    else
      m.floodLoop c e fuel (todo ++ neighbors p) (p :: visited)

/-- Overwrite collision and elevation of a single block. -/
def fillBlock (c e : Nat) (b : Block) : Block :=
  { b with collision := c, elevation := e }

/-- Write collision `c` and elevation `e` into each block of the row-major
blockdata whose cell (for a map `w` blocks wide) lies in `vs`; `i` is the
index of the first listed block. -/
def fillRegion (c e : Nat) (w : Nat) (vs : List (Int × Int)) :
    Nat → Blockdata → Blockdata
  | _, [] => []
  | i, b :: bs =>
    (if (((i % w : Nat) : Int), ((i / w : Nat) : Int)) ∈ vs then fillBlock c e b else b)
      :: fillRegion c e w vs (i + 1) bs

/-- Fuel that always suffices for `floodLoop` on a single-cell worklist. -/
def Map.floodFuel (m : Map) : Nat := 5 * (m.width * m.height) + 2

/-- Modelled from the spec: `Map::floodFillCollisionElevation` together with
its helper `Map::_floodFillCollisionElevation` (map.cpp is absent from
src/); flood fill with 4-connectivity: starting from an in-bounds `(x, y)`,
collects the cells reachable through blocks sharing the start block's
original collision and elevation, and sets `collision`/`elevation` on them.
Out-of-bounds starts do nothing. -/
def Map.floodFillCollisionElevation (m : Map) (x y : Int)
    (collision elevation : Nat) : Map :=
  match m.getBlock x y with
  | none => m
  | some b0 =>
    match m.floodLoop b0.collision b0.elevation m.floodFuel [(x, y)] [] with
    | none => m
    | some visited =>
      { m with blocks := fillRegion collision elevation m.width visited 0 m.blocks }

/-- Modelled from the spec: `Map::magicFillCollisionElevation` (map.cpp is
absent from src/); magic fill: sets `collision`/`elevation` on every block
of the map whose metatile equals that of the block at `(x, y)`, with no
adjacency requirement. Out-of-bounds starts do nothing. -/
def Map.magicFillCollisionElevation (m : Map) (x y : Int)
    (collision elevation : Nat) : Map :=
  match m.getBlock x y with
  | none => m
  | some b0 =>
    { m with blocks := m.blocks.map (fun b =>
        if b.tile = b0.tile then fillBlock collision elevation b else b) }

/-- One flood-fill step: `q` is a cardinal neighbour of `p` and both cells
carry collision `c` and elevation `e`. -/
def FloodStep (m : Map) (c e : Nat) (p q : Int × Int) : Prop :=
  m.matchesAt c e p ∧ m.matchesAt c e q ∧ q ∈ neighbors p

/-- The 4-connected region: cells reachable from `s` by flood-fill steps. -/
def Reaches (m : Map) (c e : Nat) (s t : Int × Int) : Prop :=
  Relation.ReflTransGen (FloodStep m c e) s t

/-- The finite grid of in-bounds cells of the map. -/
def Map.cellGrid (m : Map) : Finset (Int × Int) :=
  Finset.Ico (0 : Int) (m.width : Int) ×ˢ Finset.Ico (0 : Int) (m.height : Int)

/-- The in-bounds cells the worklist loop has not yet visited; its size is
the decreasing part of the loop's termination measure. -/
def Map.unvisited (m : Map) (visited : List (Int × Int)) : Finset (Int × Int) :=
  m.cellGrid.filter (fun p => p ∉ visited)

end Porymap

namespace Porymap

/- ### Toolbar: NewEventToolButton -/

/-- The eight event kinds the toolbar button can create. -/
inductive EventKind
  | object | warp | healLocation | trigger
  | weatherTrigger | sign | hiddenItem | secretBase
deriving DecidableEq, Repr

/-- Modelled from the spec: the event type string each creation action
selects (event.h is absent from src/). -/
def eventTypeString : EventKind → String
  | .object => "event_object"
  | .warp => "event_warp"
  | .healLocation => "event_heal_location"
  | .trigger => "event_trap"
  | .weatherTrigger => "event_trap_weather"
  | .sign => "event_sign"
  | .hiddenItem => "event_hidden_item"
  | .secretBase => "event_secret_base"

/-- The toolbar button of neweventtoolbutton.h, reduced to the state its
slots touch: the currently selected event type. -/
structure NewEventToolButton where
  selectedEventType : String
deriving DecidableEq, Repr

/-- `QString NewEventToolButton::getSelectedEventType()`. -/
def NewEventToolButton.getSelectedEventType (b : NewEventToolButton) : String :=
  b.selectedEventType

/-- Modelled from the spec: the shared body of the eight event-creation
slots (neweventtoolbutton.cpp is absent from src/); stores the event type
of the triggered action and emits the `newEventAdded` signal with it. The
second component is the emitted signal's payload. -/
def NewEventToolButton.activate (b : NewEventToolButton) (k : EventKind) :
    NewEventToolButton × String :=
  ({ b with selectedEventType := eventTypeString k }, eventTypeString k)

/-- Slot `NewEventToolButton::newObject`. -/
def NewEventToolButton.newObject (b : NewEventToolButton) := b.activate .object

/-- Slot `NewEventToolButton::newWarp`. -/
def NewEventToolButton.newWarp (b : NewEventToolButton) := b.activate .warp

/-- Slot `NewEventToolButton::newHealLocation`. -/
def NewEventToolButton.newHealLocation (b : NewEventToolButton) :=
  b.activate .healLocation

/-- Slot `NewEventToolButton::newTrigger`. -/
def NewEventToolButton.newTrigger (b : NewEventToolButton) := b.activate .trigger

/-- Slot `NewEventToolButton::newWeatherTrigger`. -/
def NewEventToolButton.newWeatherTrigger (b : NewEventToolButton) :=
  b.activate .weatherTrigger

/-- Slot `NewEventToolButton::newSign`. -/
def NewEventToolButton.newSign (b : NewEventToolButton) := b.activate .sign

/-- Slot `NewEventToolButton::newHiddenItem`. -/
def NewEventToolButton.newHiddenItem (b : NewEventToolButton) :=
  b.activate .hiddenItem

/-- Slot `NewEventToolButton::newSecretBase`. -/
def NewEventToolButton.newSecretBase (b : NewEventToolButton) :=
  b.activate .secretBase

end Porymap

namespace Porymap

/- ### Helper lemmas -/

/-- An in-bounds `getBlock` reads the row-major blockdata. -/
lemma getBlock_eq_get? (m : Map) {x y : Int} (hx0 : 0 ≤ x)
    (hxw : x < (m.width : Int)) (hy0 : 0 ≤ y) (hyh : y < (m.height : Int)) :
    m.getBlock x y = m.blocks.get? (y.toNat * m.width + x.toNat) := by
  unfold Map.getBlock
  rw [if_neg (by omega)]

/-- A successful `getBlock` certifies bounds and the row-major read. -/
lemma getBlock_some_elim {m : Map} {x y : Int} {b : Block}
    (h : m.getBlock x y = some b) :
    0 ≤ x ∧ x < (m.width : Int) ∧ 0 ≤ y ∧ y < (m.height : Int) ∧
      m.blocks.get? (y.toNat * m.width + x.toNat) = some b := by
  unfold Map.getBlock at h
  split at h
  · exact absurd h (by simp)
  · next hc => push_neg at hc; exact ⟨by omega, by omega, by omega, by omega, h⟩

/-- The row-major index of an in-bounds cell is within a well-formed
blockdata. -/
lemma idx_lt_length (m : Map) (hwf : m.WF) {x y : Int} (hx0 : 0 ≤ x)
    (hxw : x < (m.width : Int)) (hy0 : 0 ≤ y) (hyh : y < (m.height : Int)) :
    y.toNat * m.width + x.toNat < m.blocks.length := by
  have hwf' : m.blocks.length = m.width * m.height := hwf
  have hx : x.toNat < m.width := by omega
  have hy : y.toNat < m.height := by omega
  have h1 : y.toNat * m.width + x.toNat < (y.toNat + 1) * m.width := by
    rw [Nat.succ_mul]; omega
  have h2 : (y.toNat + 1) * m.width ≤ m.height * m.width :=
    Nat.mul_le_mul_right _ hy
  rw [hwf', Nat.mul_comm m.width m.height]
  exact lt_of_lt_of_le h1 h2

/-- Row-major indices decompose uniquely: the cell of index `b * w + a`
with `a < w` is `(a, b)`. -/
lemma idx_mod_div {w a b : Nat} (ha : a < w) :
    (b * w + a) % w = a ∧ (b * w + a) / w = b := by
  have hw : 0 < w := Nat.pos_of_ne_zero (by omega)
  constructor
  · rw [Nat.mul_comm b w, Nat.mul_add_mod]
    exact Nat.mod_eq_of_lt ha
  · rw [Nat.mul_comm b w, Nat.mul_add_div hw, Nat.div_eq_of_lt ha]
    omega

/-- Row-major indices of in-bounds cells are injective. -/
lemma idx_inj {w : Nat} {a a' b b' : Nat} (ha : a < w) (ha' : a' < w)
    (h : b * w + a = b' * w + a') : a = a' ∧ b = b' := by
  have h1 := idx_mod_div (b := b) ha
  have h2 := idx_mod_div (b := b') ha'
  constructor
  · rw [← h1.1, ← h2.1, h]
  · rw [← h1.2, ← h2.2, h]

/-- `getBlock` after replacing the blockdata, spelled out. -/
lemma getBlock_update_blocks (m : Map) (l : Blockdata) (x y : Int) :
    ({ m with blocks := l } : Map).getBlock x y =
      if x < 0 ∨ (m.width : Int) ≤ x ∨ y < 0 ∨ (m.height : Int) ≤ y then none
      else l.get? (y.toNat * m.width + x.toNat) := rfl

/-- `setBlock` only touches the blockdata. -/
lemma setBlock_fields (m : Map) (x y : Int) (b : Block) :
    (m.setBlock x y b).width = m.width ∧ (m.setBlock x y b).height = m.height ∧
      (m.setBlock x y b).editHistory = m.editHistory ∧
      (m.setBlock x y b).isPersistedToFile = m.isPersistedToFile := by
  unfold Map.setBlock
  split <;> exact ⟨rfl, rfl, rfl, rfl⟩

/-- Pushing a command on the undo stack always leaves it unclean. -/
lemma push_not_isClean (h : EditHistory) : h.push.isClean = false := by
  unfold EditHistory.push EditHistory.isClean
  cases hc : h.cleanIndex with
  | none => simp
  | some ci =>
    by_cases hlt : h.index < ci
    · simp [hlt]
    · simp only [if_neg hlt]
      simp only [decide_eq_false_iff_not]
      intro hmk
      have : ci = h.index + 1 := by injection hmk
      omega

/-- The incremental renderer applied to a faithfully rendered cache
reproduces the full rendering. -/
lemma renderIncremental_of_full {γ : Type _} (f : Block → γ) (blocks : Blockdata) :
    ∀ cached : Blockdata,
      renderIncremental f blocks cached (renderFull f cached) = renderFull f blocks := by
  induction blocks with
  | nil => intro cached; rfl
  | cons b bs ih =>
    intro cached
    cases cached with
    | nil =>
      show f b :: renderIncremental f bs [] [] = f b :: renderFull f bs
      exact congrArg _ (ih [])
    | cons cb cs =>
      show (if b = cb then f cb else f b) :: renderIncremental f bs cs (renderFull f cs)
        = f b :: renderFull f bs
      by_cases hbc : b = cb
      · rw [if_pos hbc, hbc, ih cs]
      · rw [if_neg hbc, ih cs]

end Porymap

namespace Porymap

/- ### C10: default border dimensions -/

/-- C10: a freshly constructed map, whose border dimensions were never
explicitly set, reports border width `DEFAULT_BORDER_WIDTH = 2` and border
height `DEFAULT_BORDER_HEIGHT = 2`. -/
theorem new_map_border_dims_default :
    Map.new.getBorderWidth = DEFAULT_BORDER_WIDTH ∧
      Map.new.getBorderHeight = DEFAULT_BORDER_HEIGHT ∧
      DEFAULT_BORDER_WIDTH = 2 ∧ DEFAULT_BORDER_HEIGHT = 2 :=
  ⟨rfl, rfl, rfl, rfl⟩

/- ### C9: out-of-bounds access is safe -/

/-- C9: for every out-of-bounds coordinate, `getBlock` returns no block and
`setBlock` leaves the map unchanged. -/
theorem out_of_bounds_getBlock_setBlock (m : Map) (x y : Int)
    (h : x < 0 ∨ (m.width : Int) ≤ x ∨ y < 0 ∨ (m.height : Int) ≤ y) :
    m.getBlock x y = none ∧ ∀ b : Block, m.setBlock x y b = m := by
  refine ⟨?_, fun b => ?_⟩
  · unfold Map.getBlock; rw [if_pos h]
  · unfold Map.setBlock; rw [if_pos h]

/-- Witness for C9 at a concrete out-of-bounds coordinate. -/
theorem out_of_bounds_getBlock_setBlock_witness :
    (Map.new).getBlock 3 0 = none ∧ ∀ b : Block, (Map.new).setBlock 3 0 b = Map.new :=
  out_of_bounds_getBlock_setBlock Map.new 3 0 (by decide)

/- ### C8: setBlock / getBlock round trip -/

/-- C8: after `setBlock` at an in-bounds `(x, y)`, `getBlock (x, y)` returns
the written block and every other coordinate reads as before. -/
theorem setBlock_getBlock_spec (m : Map) (hwf : m.WF) (x y : Int) (b : Block)
    (hx0 : 0 ≤ x) (hxw : x < (m.width : Int))
    (hy0 : 0 ≤ y) (hyh : y < (m.height : Int)) :
    (m.setBlock x y b).getBlock x y = some b ∧
      ∀ x' y' : Int, (x', y') ≠ (x, y) →
        (m.setBlock x y b).getBlock x' y' = m.getBlock x' y' := by
  have hcond : ¬(x < 0 ∨ (m.width : Int) ≤ x ∨ y < 0 ∨ (m.height : Int) ≤ y) := by
    omega
  have hm' : m.setBlock x y b =
      { m with blocks := m.blocks.set (y.toNat * m.width + x.toNat) b } := by
    unfold Map.setBlock; rw [if_neg hcond]
  have hk := idx_lt_length m hwf hx0 hxw hy0 hyh
  constructor
  · rw [hm', getBlock_update_blocks, if_neg hcond]
    exact List.get?_set_eq_of_lt b hk
  · intro x' y' hne
    by_cases hoob : x' < 0 ∨ (m.width : Int) ≤ x' ∨ y' < 0 ∨ (m.height : Int) ≤ y'
    · rw [hm', getBlock_update_blocks, if_pos hoob]
      unfold Map.getBlock; rw [if_pos hoob]
    · push_neg at hoob
      obtain ⟨hx0', hxw', hy0', hyh'⟩ := hoob
      rw [hm', getBlock_update_blocks, if_neg (by omega),
        getBlock_eq_get? m hx0' hxw' hy0' hyh']
      apply List.get?_set_ne
      intro heq
      have hxlt : x.toNat < m.width := by omega
      have hxlt' : x'.toNat < m.width := by omega
      obtain ⟨hxx, hyy⟩ := idx_inj hxlt hxlt' heq
      exact hne (by rw [show x' = x by omega, show y' = y by omega])

/-- Witness for C8 on a concrete 1×1 map. -/
theorem setBlock_getBlock_witness :
    (({ Map.new with width := 1, height := 1, blocks := [⟨0, 0, 0⟩] } : Map).setBlock
        0 0 ⟨4, 5, 6⟩).getBlock 0 0 = some ⟨4, 5, 6⟩ :=
  (setBlock_getBlock_spec
    { Map.new with width := 1, height := 1, blocks := [⟨0, 0, 0⟩] }
    rfl 0 0 ⟨4, 5, 6⟩ (by decide) (by decide) (by decide) (by decide)).1

/- ### C3: dirty-block detection is the cache diff -/

/-- C3: `mapBlockChanged i cache` holds exactly when the `i`-th current
block differs from the `i`-th cached block, and `borderBlockChanged`
satisfies the same iff-property for the border blockdata. -/
theorem blockChanged_iff (m : Map) (cache : Blockdata) (i : Nat)
    (h1 : i < m.blocks.length) (h2 : i < cache.length) (h3 : i < m.border.length) :
    (m.mapBlockChanged i cache = true ↔ m.blocks[i] ≠ cache[i]) ∧
      (m.borderBlockChanged i cache = true ↔ m.border[i] ≠ cache[i]) := by
  constructor
  · unfold Map.mapBlockChanged
    rw [List.getD_eq_getElem?_getD, List.getD_eq_getElem?_getD,
      List.getElem?_eq_getElem h1, List.getElem?_eq_getElem h2]
    simp
  · unfold Map.borderBlockChanged
    rw [List.getD_eq_getElem?_getD, List.getD_eq_getElem?_getD,
      List.getElem?_eq_getElem h3, List.getElem?_eq_getElem h2]
    simp

/-- Witness for C3 on concrete one-block data. -/
theorem blockChanged_iff_witness :
    ({ Map.new with blocks := [⟨1, 2, 3⟩], border := [⟨5, 0, 0⟩] } : Map).mapBlockChanged
      0 [⟨1, 0, 3⟩] = true := by
  have h := (blockChanged_iff
    { Map.new with blocks := [⟨1, 2, 3⟩], border := [⟨5, 0, 0⟩] }
    [⟨1, 0, 3⟩] 0 (by decide) (by decide) (by decide)).1
  exact h.mpr (by decide)

/- ### C4: magic fill -/

/-- C4: `magicFillCollisionElevation` rewrites collision and elevation on
exactly the blocks whose metatile matches the start block's metatile, and
leaves every non-matching block unchanged. -/
theorem magicFillCollisionElevation_spec (m : Map) (x y : Int) (c e : Nat)
    (b0 : Block) (h0 : m.getBlock x y = some b0) (x' y' : Int) (b' : Block)
    (h' : m.getBlock x' y' = some b') :
    (m.magicFillCollisionElevation x y c e).getBlock x' y' =
      some (if b'.tile = b0.tile then fillBlock c e b' else b') := by
  obtain ⟨hx0, hxw, hy0, hyh, hget⟩ := getBlock_some_elim h'
  unfold Map.magicFillCollisionElevation
  rw [h0, getBlock_update_blocks, if_neg (by omega), List.get?_map, hget]
  rfl

/-- Witness for C4 on a concrete 2×2 map: the tile-7 block at `(1, 0)` gets
the new collision and elevation. -/
theorem magicFillCollisionElevation_witness :
    (({ Map.new with
        width := 2
        height := 2
        blocks := [⟨7, 0, 0⟩, ⟨7, 1, 1⟩, ⟨8, 0, 0⟩, ⟨7, 0, 0⟩] } :
      Map).magicFillCollisionElevation 0 0 3 1).getBlock 1 0 = some ⟨7, 3, 1⟩ := by
  have h := magicFillCollisionElevation_spec
    { Map.new with
      width := 2
      height := 2
      blocks := [⟨7, 0, 0⟩, ⟨7, 1, 1⟩, ⟨8, 0, 0⟩, ⟨7, 0, 0⟩] }
    0 0 3 1 ⟨7, 0, 0⟩ (by decide) 1 0 ⟨7, 1, 1⟩ (by decide)
  rw [h]
  decide

/- ### C5: the undo-stack wiring records edits -/

/-- C5: a block-mutating edit on a map that was persisted to file leaves
the map with unsaved changes. -/
theorem applyBlockEdit_hasUnsavedChanges (m : Map) (x y : Int) (b : Block)
    (hp : m.isPersistedToFile = true) :
    (m.applyBlockEdit x y b).hasUnsavedChanges = true := by
  have hf := setBlock_fields m x y b
  simp only [Map.applyBlockEdit, Map.hasUnsavedChanges]
  rw [push_not_isClean, hf.2.2.2, hp]
  rfl

/-- Witness for C5 on a concrete persisted map. -/
theorem applyBlockEdit_hasUnsavedChanges_witness :
    ((Map.new).applyBlockEdit 0 0 ⟨1, 2, 3⟩).hasUnsavedChanges = true :=
  applyBlockEdit_hasUnsavedChanges Map.new 0 0 ⟨1, 2, 3⟩ rfl

/- ### C6: toolbar slots select and emit their event type -/

/-- C6: each of the eight event-creation slots emits the `newEventAdded`
signal carrying its event type string, and `getSelectedEventType` then
returns that same string. -/
theorem newEventToolButton_slots (b : NewEventToolButton) :
    (b.newObject.2 = eventTypeString .object ∧
        b.newObject.1.getSelectedEventType = b.newObject.2) ∧
      (b.newWarp.2 = eventTypeString .warp ∧
        b.newWarp.1.getSelectedEventType = b.newWarp.2) ∧
      (b.newHealLocation.2 = eventTypeString .healLocation ∧
        b.newHealLocation.1.getSelectedEventType = b.newHealLocation.2) ∧
      (b.newTrigger.2 = eventTypeString .trigger ∧
        b.newTrigger.1.getSelectedEventType = b.newTrigger.2) ∧
      (b.newWeatherTrigger.2 = eventTypeString .weatherTrigger ∧
        b.newWeatherTrigger.1.getSelectedEventType = b.newWeatherTrigger.2) ∧
      (b.newSign.2 = eventTypeString .sign ∧
        b.newSign.1.getSelectedEventType = b.newSign.2) ∧
      (b.newHiddenItem.2 = eventTypeString .hiddenItem ∧
        b.newHiddenItem.1.getSelectedEventType = b.newHiddenItem.2) ∧
      (b.newSecretBase.2 = eventTypeString .secretBase ∧
        b.newSecretBase.1.getSelectedEventType = b.newSecretBase.2) :=
  ⟨⟨rfl, rfl⟩, ⟨rfl, rfl⟩, ⟨rfl, rfl⟩, ⟨rfl, rfl⟩,
    ⟨rfl, rfl⟩, ⟨rfl, rfl⟩, ⟨rfl, rfl⟩, ⟨rfl, rfl⟩⟩

/- ### C2: incremental rendering equals full regeneration -/

/-- C2: when the previously rendered image faithfully renders the cached
blockdata (the invariant `render`/`cacheBlockdata` maintain), the
incremental path `render ignoreCache=false`, which redraws only the blocks
dirty-block detection flags, equals the full-regeneration path
`render ignoreCache=true`. -/
theorem render_incremental_eq_full {γ : Type _} (m : Map) (f : Block → γ)
    (image : List γ) (h : image = renderFull f m.cachedBlockdata) :
    m.render f false image = m.render f true image := by
  subst h
  show renderIncremental f m.blocks m.cachedBlockdata (renderFull f m.cachedBlockdata)
    = renderFull f m.blocks
  exact renderIncremental_of_full f m.blocks m.cachedBlockdata

/-- Witness for C2 on a concrete map with a stale one-block cache. -/
theorem render_incremental_eq_full_witness :
    ({ Map.new with blocks := [⟨1, 0, 0⟩], cachedBlockdata := [⟨2, 0, 0⟩] } : Map).render
        (fun bl => bl.tile) false (renderFull (fun bl => bl.tile) [⟨2, 0, 0⟩]) =
      ({ Map.new with blocks := [⟨1, 0, 0⟩], cachedBlockdata := [⟨2, 0, 0⟩] } : Map).render
        (fun bl => bl.tile) true (renderFull (fun bl => bl.tile) [⟨2, 0, 0⟩]) :=
  render_incremental_eq_full
    { Map.new with blocks := [⟨1, 0, 0⟩], cachedBlockdata := [⟨2, 0, 0⟩] }
    (fun bl => bl.tile) (renderFull (fun bl => bl.tile) [⟨2, 0, 0⟩]) rfl

end Porymap

namespace Porymap

/- ### Flood fill: termination of the worklist loop -/

/-- A matching cell holds a block carrying the sought values. -/
lemma matchesAt_elim {m : Map} {c e : Nat} {p : Int × Int}
    (h : m.matchesAt c e p = true) :
    ∃ b, m.getBlock p.1 p.2 = some b ∧ b.collision = c ∧ b.elevation = e := by
  unfold Map.matchesAt at h
  cases hg : m.getBlock p.1 p.2 with
  | none => simp [hg] at h
  | some b =>
    simp only [hg] at h
    exact ⟨b, rfl, by simpa using h⟩

/-- A matching cell lies on the grid of in-bounds cells. -/
lemma matchesAt_mem_grid {m : Map} {c e : Nat} {p : Int × Int}
    (h : m.matchesAt c e p = true) : p ∈ m.cellGrid := by
  obtain ⟨b, hb, -, -⟩ := matchesAt_elim h
  obtain ⟨h1, h2, h3, h4, -⟩ := getBlock_some_elim hb
  exact Finset.mem_product.mpr
    ⟨Finset.mem_Ico.mpr ⟨h1, h2⟩, Finset.mem_Ico.mpr ⟨h3, h4⟩⟩

/-- Visiting a fresh in-bounds cell strictly shrinks the unvisited set. -/
lemma unvisited_cons {m : Map} {visited : List (Int × Int)} {p : Int × Int}
    (hp : p ∈ m.cellGrid) (hnv : p ∉ visited) :
    (m.unvisited (p :: visited)).card + 1 = (m.unvisited visited).card := by
  have hset : m.unvisited (p :: visited) = (m.unvisited visited).erase p := by
    unfold Map.unvisited
    ext q
    simp only [Finset.mem_filter, Finset.mem_erase, List.mem_cons]
    tauto
  have hmem : p ∈ m.unvisited visited := by
    unfold Map.unvisited
    exact Finset.mem_filter.mpr ⟨hp, hnv⟩
  rw [hset, Finset.card_erase_of_mem hmem]
  have : 0 < (m.unvisited visited).card := Finset.card_pos.mpr ⟨p, hmem⟩
  omega

/-- The worklist loop completes whenever the fuel dominates the measure
`5 · |unvisited| + |todo| + 1`. -/
lemma floodLoop_some (m : Map) (c e : Nat) :
    ∀ (fuel : Nat) (todo visited : List (Int × Int)),
      5 * (m.unvisited visited).card + todo.length + 1 ≤ fuel →
      ∃ v, m.floodLoop c e fuel todo visited = some v := by
  intro fuel
  induction fuel with
  | zero => intro todo visited h; omega
  | succ n ih =>
    intro todo visited h
    cases todo with
    | nil => exact ⟨visited, rfl⟩
    | cons p rest =>
      simp only [List.length_cons] at h
      by_cases hc : p ∈ visited ∨ ¬ m.matchesAt c e p = true
      · have hstep : m.floodLoop c e (n + 1) (p :: rest) visited =
            m.floodLoop c e n rest visited := by
          simp only [Map.floodLoop]
          rw [if_pos hc]
        rw [hstep]
        exact ih rest visited (by omega)
      · push_neg at hc
        have hstep : m.floodLoop c e (n + 1) (p :: rest) visited =
            m.floodLoop c e n (rest ++ neighbors p) (p :: visited) := by
          simp only [Map.floodLoop]
          rw [if_neg (by push_neg; exact hc)]
        rw [hstep]
        apply ih
        have hdec := unvisited_cons (matchesAt_mem_grid hc.2) hc.1
        have hlen : (rest ++ neighbors p).length = rest.length + 4 := by
          simp [neighbors]
        omega

/-- The unvisited set of a fresh run is at most the whole grid. -/
lemma unvisited_card_le (m : Map) :
    (m.unvisited []).card ≤ m.width * m.height := by
  have h1 : (m.unvisited []).card ≤ m.cellGrid.card :=
    Finset.card_filter_le _ _
  have h2 : m.cellGrid.card = m.width * m.height := by
    unfold Map.cellGrid
    rw [Finset.card_product, Int.card_Ico, Int.card_Ico]
    simp
  omega

/- ### C7: flood fill terminates -/

/-- C7: on every (finite) map and for every starting coordinate, the
worklist loop run by `floodFillCollisionElevation` finishes within the fuel
`floodFuel` the fill allots, so the fill never takes its fuel-exhausted
fallback branch: flood fill terminates. -/
theorem floodFillCollisionElevation_terminates (m : Map) (x y : Int) (c e : Nat) :
    ∃ visited, m.floodLoop c e m.floodFuel [(x, y)] [] = some visited := by
  apply floodLoop_some
  have := unvisited_card_le m
  have hlen : ([(x, y)] : List (Int × Int)).length = 1 := rfl
  unfold Map.floodFuel
  omega

end Porymap

namespace Porymap

/- ### Flood fill: the visited set is exactly the 4-connected region -/

/-- Reachability only passes through matching cells. -/
lemma reaches_matches {m : Map} {c e : Nat} {s t : Int × Int}
    (hM : m.matchesAt c e s = true) (h : Reaches m c e s t) :
    m.matchesAt c e t = true := by
  induction h with
  | refl => exact hM
  | tail _ hstep _ => exact hstep.2.1

/-- The worklist loop only ever grows its visited list. -/
lemma floodLoop_visited_subset (m : Map) (c e : Nat) :
    ∀ (fuel : Nat) (todo visited final : List (Int × Int)),
      m.floodLoop c e fuel todo visited = some final → visited ⊆ final := by
  intro fuel
  induction fuel with
  | zero => intro todo visited final h; simp [Map.floodLoop] at h
  | succ n ih =>
    intro todo visited final h
    cases todo with
    | nil =>
      simp only [Map.floodLoop, Option.some.injEq] at h
      exact h ▸ List.Subset.refl visited
    | cons p rest =>
      simp only [Map.floodLoop] at h
      by_cases hc : p ∈ visited ∨ ¬ m.matchesAt c e p = true
      · rw [if_pos hc] at h
        exact ih rest visited final h
      · rw [if_neg hc] at h
        exact List.Subset.trans (List.subset_cons_self p visited)
          (ih (rest ++ neighbors p) (p :: visited) final h)

/-- Invariant of the worklist loop: visited cells match and are reachable,
queued matching cells are reachable, matching neighbours of visited cells
are queued or visited, and the start is queued or visited. These carry to
the final visited list: all of it is reachable, it contains the (matching)
start, and it is closed under matching neighbours. -/
lemma floodLoop_invariant (m : Map) (c e : Nat) (s : Int × Int) :
    ∀ (fuel : Nat) (todo visited final : List (Int × Int)),
      m.floodLoop c e fuel todo visited = some final →
      (∀ p ∈ visited, m.matchesAt c e p = true ∧ Reaches m c e s p) →
      (∀ p ∈ todo, m.matchesAt c e p = true → Reaches m c e s p) →
      (∀ p ∈ visited, ∀ q ∈ neighbors p,
        m.matchesAt c e q = true → q ∈ visited ∨ q ∈ todo) →
      (m.matchesAt c e s = true → s ∈ visited ∨ s ∈ todo) →
      (∀ t ∈ final, m.matchesAt c e t = true ∧ Reaches m c e s t) ∧
        (m.matchesAt c e s = true → s ∈ final) ∧
        (∀ p ∈ final, ∀ q ∈ neighbors p,
          m.matchesAt c e q = true → q ∈ final) := by
  intro fuel
  induction fuel with
  | zero => intro todo visited final h; simp [Map.floodLoop] at h
  | succ n ih =>
    intro todo visited final h inv1 inv2 inv3 inv4
    cases todo with
    | nil =>
      simp only [Map.floodLoop, Option.some.injEq] at h
      subst h
      refine ⟨inv1, ?_, ?_⟩
      · intro hMs
        rcases inv4 hMs with hv | hv
        · exact hv
        · exact absurd hv (List.not_mem_nil s)
      · intro p hp q hq hMq
        rcases inv3 p hp q hq hMq with hv | hv
        · exact hv
        · exact absurd hv (List.not_mem_nil q)
    | cons p rest =>
      simp only [Map.floodLoop] at h
      by_cases hc : p ∈ visited ∨ ¬ m.matchesAt c e p = true
      · rw [if_pos hc] at h
        refine ih rest visited final h inv1 ?_ ?_ ?_
        · intro q hq hMq
          exact inv2 q (List.mem_cons_of_mem p hq) hMq
        · intro p' hp' q hq hMq
          rcases inv3 p' hp' q hq hMq with hv | hv
          · exact Or.inl hv
          · rcases List.mem_cons.mp hv with hqp | hv
            · subst hqp
              rcases hc with hc | hc
              · exact Or.inl hc
              · exact absurd hMq hc
            · exact Or.inr hv
        · intro hMs
          rcases inv4 hMs with hv | hv
          · exact Or.inl hv
          · rcases List.mem_cons.mp hv with hsp | hv
            · subst hsp
              rcases hc with hc | hc
              · exact Or.inl hc
              · exact absurd hMs hc
            · exact Or.inr hv
      · rw [if_neg hc] at h
        push_neg at hc
        obtain ⟨hpv, hMp⟩ := hc
        have hRp : Reaches m c e s p := inv2 p (List.mem_cons_self p rest) hMp
        refine ih (rest ++ neighbors p) (p :: visited) final h ?_ ?_ ?_ ?_
        · intro q hq
          rcases List.mem_cons.mp hq with hqp | hq
          · subst hqp; exact ⟨hMp, hRp⟩
          · exact inv1 q hq
        · intro q hq hMq
          rcases List.mem_append.mp hq with hq | hq
          · exact inv2 q (List.mem_cons_of_mem p hq) hMq
          · exact Relation.ReflTransGen.tail hRp ⟨hMp, hMq, hq⟩
        · intro p' hp' q hq hMq
          rcases List.mem_cons.mp hp' with hpp | hp'
          · subst hpp
            exact Or.inr (List.mem_append.mpr (Or.inr hq))
          · rcases inv3 p' hp' q hq hMq with hv | hv
            · exact Or.inl (List.mem_cons_of_mem p hv)
            · rcases List.mem_cons.mp hv with hqp | hv
              · rw [hqp]; exact Or.inl (List.mem_cons_self p visited)
              · exact Or.inr (List.mem_append.mpr (Or.inl hv))
        · intro hMs
          rcases inv4 hMs with hv | hv
          · exact Or.inl (List.mem_cons_of_mem p hv)
          · rcases List.mem_cons.mp hv with hsp | hv
            · subst hsp; exact Or.inl (List.mem_cons_self s visited)
            · exact Or.inr (List.mem_append.mpr (Or.inl hv))

/-- The visited list a fresh run returns is exactly the 4-connected region
of cells reachable from the (matching) start. -/
lemma floodLoop_characterizes (m : Map) (c e : Nat) (s : Int × Int)
    (hMs : m.matchesAt c e s = true) {final : List (Int × Int)} {fuel : Nat}
    (h : m.floodLoop c e fuel [s] [] = some final) :
    ∀ t, t ∈ final ↔ Reaches m c e s t := by
  have inv := floodLoop_invariant m c e s fuel [s] [] final h
    (by intro p hp; exact absurd hp (List.not_mem_nil p))
    (by
      intro p hp hMp
      rcases List.mem_cons.mp hp with hps | hps
      · subst hps; exact Relation.ReflTransGen.refl
      · exact absurd hps (List.not_mem_nil p))
    (by intro p hp; exact absurd hp (List.not_mem_nil p))
    (fun _ => Or.inr (List.mem_cons_self s []))
  intro t
  constructor
  · exact fun ht => (inv.1 t ht).2
  · intro hR
    induction hR with
    | refl => exact inv.2.1 hMs
    | tail hab hstep ihab =>
      exact inv.2.2 _ ihab _ hstep.2.2 hstep.2.1

/-- A matching pair-coordinate cell holds a block with the sought values. -/
lemma matchesAt_pair_elim {m : Map} {c e : Nat} {x y : Int}
    (h : m.matchesAt c e (x, y) = true) :
    ∃ b, m.getBlock x y = some b ∧ b.collision = c ∧ b.elevation = e :=
  matchesAt_elim h

/-- Reading the region-filled blockdata, index by index. -/
lemma fillRegion_get? (c e w : Nat) (vs : List (Int × Int)) :
    ∀ (bs : Blockdata) (i j : Nat),
      (fillRegion c e w vs i bs).get? j =
        (bs.get? j).map (fun b =>
          if ((((i + j) % w : Nat) : Int), (((i + j) / w : Nat) : Int)) ∈ vs
          then fillBlock c e b else b) := by
  intro bs
  induction bs with
  | nil => intro i j; simp [fillRegion]
  | cons b bs ih =>
    intro i j
    cases j with
    | zero => simp [fillRegion]
    | succ jj =>
      have hstep : (fillRegion c e w vs i (b :: bs)).get? (jj + 1) =
          (fillRegion c e w vs (i + 1) bs).get? jj := rfl
      have heq : i + 1 + jj = i + (jj + 1) := by omega
      rw [hstep, ih (i + 1) jj]
      simp only [heq]
      rfl

/- ### C1: flood fill fills exactly the 4-connected region -/

/-- C1: for every well-formed map and in-bounds start `(x, y)`,
`floodFillCollisionElevation` writes the given collision and elevation on
exactly the 4-connected region of blocks reachable from `(x, y)` through
blocks sharing the start block's original collision and elevation
(cardinal neighbours only), and leaves every block outside that region
unchanged. -/
theorem floodFillCollisionElevation_spec (m : Map) (x y : Int)
    (c e : Nat) (b0 : Block) (h0 : m.getBlock x y = some b0) :
    (∀ x' y' : Int, Reaches m b0.collision b0.elevation (x, y) (x', y') →
        ∃ b', m.getBlock x' y' = some b' ∧
          (m.floodFillCollisionElevation x y c e).getBlock x' y' =
            some (fillBlock c e b')) ∧
      (∀ x' y' : Int, ¬ Reaches m b0.collision b0.elevation (x, y) (x', y') →
        (m.floodFillCollisionElevation x y c e).getBlock x' y' =
          m.getBlock x' y') := by
  have hMs : m.matchesAt b0.collision b0.elevation (x, y) = true := by
    unfold Map.matchesAt
    simp [h0]
  obtain ⟨final, hfinal⟩ :=
    floodLoop_some m b0.collision b0.elevation m.floodFuel [(x, y)] []
      (by
        have := unvisited_card_le m
        have hlen : ([(x, y)] : List (Int × Int)).length = 1 := rfl
        unfold Map.floodFuel
        omega)
  have hchar := floodLoop_characterizes m b0.collision b0.elevation (x, y) hMs hfinal
  have hm' : m.floodFillCollisionElevation x y c e =
      { m with blocks := fillRegion c e m.width final 0 m.blocks } := by
    unfold Map.floodFillCollisionElevation
    rw [h0]
    show (match m.floodLoop b0.collision b0.elevation m.floodFuel [(x, y)] [] with
        | none => m
        | some visited =>
          { m with blocks := fillRegion c e m.width visited 0 m.blocks }) = _
    rw [hfinal]
  constructor
  · intro x' y' hR
    have hMt := reaches_matches hMs hR
    obtain ⟨b', hb', -, -⟩ := matchesAt_pair_elim hMt
    obtain ⟨hx0', hxw', hy0', hyh', hget⟩ := getBlock_some_elim hb'
    refine ⟨b', hb', ?_⟩
    rw [hm', getBlock_update_blocks, if_neg (by omega),
      fillRegion_get? c e m.width final m.blocks 0 (y'.toNat * m.width + x'.toNat),
      hget]
    have hxlt : x'.toNat < m.width := by omega
    have hmod := (idx_mod_div (b := y'.toNat) hxlt).1
    have hdiv := (idx_mod_div (b := y'.toNat) hxlt).2
    simp only [Option.map_some', Nat.zero_add, hmod, hdiv,
      Int.toNat_of_nonneg hx0', Int.toNat_of_nonneg hy0']
    rw [if_pos ((hchar (x', y')).mpr hR)]
  · intro x' y' hnR
    by_cases hoob : x' < 0 ∨ (m.width : Int) ≤ x' ∨ y' < 0 ∨ (m.height : Int) ≤ y'
    · rw [hm', getBlock_update_blocks, if_pos hoob]
      unfold Map.getBlock
      rw [if_pos hoob]
    · push_neg at hoob
      obtain ⟨hx0', hxw', hy0', hyh'⟩ := hoob
      rw [hm', getBlock_update_blocks, if_neg (by omega),
        getBlock_eq_get? m hx0' hxw' hy0' hyh',
        fillRegion_get? c e m.width final m.blocks 0 (y'.toNat * m.width + x'.toNat)]
      have hxlt : x'.toNat < m.width := by omega
      have hmod := (idx_mod_div (b := y'.toNat) hxlt).1
      have hdiv := (idx_mod_div (b := y'.toNat) hxlt).2
      simp only [Nat.zero_add, hmod, hdiv,
        Int.toNat_of_nonneg hx0', Int.toNat_of_nonneg hy0']
      have hnf : (x', y') ∉ final := fun hmem => hnR ((hchar (x', y')).mp hmem)
      simp [hnf]

/-- Witness for C1 on a concrete 2×2 map: the start's right neighbour
shares the start's collision/elevation, so the fill rewrites it. -/
theorem floodFillCollisionElevation_spec_witness :
    ∃ b', ({ Map.new with
        width := 2
        height := 2
        blocks := [⟨0, 0, 0⟩, ⟨0, 0, 0⟩, ⟨0, 1, 1⟩, ⟨0, 0, 0⟩] } : Map).getBlock 1 0 =
          some b' ∧
      (({ Map.new with
        width := 2
        height := 2
        blocks := [⟨0, 0, 0⟩, ⟨0, 0, 0⟩, ⟨0, 1, 1⟩, ⟨0, 0, 0⟩] } :
          Map).floodFillCollisionElevation 0 0 2 3).getBlock 1 0 =
        some (fillBlock 2 3 b') :=
  (floodFillCollisionElevation_spec
      { Map.new with
        width := 2
        height := 2
        blocks := [⟨0, 0, 0⟩, ⟨0, 0, 0⟩, ⟨0, 1, 1⟩, ⟨0, 0, 0⟩] }
      0 0 2 3 ⟨0, 0, 0⟩ (by decide)).1 1 0
    (Relation.ReflTransGen.single ⟨by decide, by decide, by decide⟩)

end Porymap

